import Mathlib

/-!
Verification of the solana-geyser-wallet-indexer repository.

The repository has two components:
* `clickhouse_ingestor/src/main.rs`: a single-threaded event loop that
  subscribes to a NATS subject, accumulates UTF-8 payloads into a batch
  buffer, and flushes the batch to ClickHouse over HTTP when the batch
  reaches a size threshold or a timer tick fires.
* `src/lib.rs`: a Geyser plugin (`LoggerPlugin`) that filters account
  updates against an optional target wallet and publishes matching rows
  to NATS.

Messages are modelled as byte sequences (`List Nat`, each entry one byte),
the network as an oracle (`SendResult`) supplied with each event, and the
event loop as a step function over a loop state, following the structure
of `main.rs` line by line.
-/

/-- Validity of a byte in the UTF-8 continuation range 0x80..0xBF. -/
def utf8Cont (b : Nat) : Bool := 0x80 ≤ b && b ≤ 0xBF

/-- UTF-8 validity of a byte sequence, with exactly the acceptance ranges of
the Rust standard library validator behind `String::from_utf8`
(`main.rs` line 53): ASCII, 2-byte sequences starting 0xC2..0xDF,
3-byte sequences excluding overlongs and surrogates, 4-byte sequences
excluding overlongs and values above U+10FFFF. -/
def utf8Valid : List Nat → Bool
  | [] => true
  | b :: rest =>
    if b ≤ 0x7F then utf8Valid rest
    else if 0xC2 ≤ b && b ≤ 0xDF then
      match rest with
      | c1 :: rest2 => utf8Cont c1 && utf8Valid rest2
      | [] => false
    else if b == 0xE0 then
      match rest with
      | c1 :: c2 :: rest2 =>
        (0xA0 ≤ c1 && c1 ≤ 0xBF) && utf8Cont c2 && utf8Valid rest2
      | _ => false
    else if (0xE1 ≤ b && b ≤ 0xEC) || b == 0xEE || b == 0xEF then
      match rest with
      | c1 :: c2 :: rest2 => utf8Cont c1 && utf8Cont c2 && utf8Valid rest2
      | _ => false
    else if b == 0xED then
      match rest with
      | c1 :: c2 :: rest2 =>
        (0x80 ≤ c1 && c1 ≤ 0x9F) && utf8Cont c2 && utf8Valid rest2
      | _ => false
    else if b == 0xF0 then
      match rest with
      | c1 :: c2 :: c3 :: rest2 =>
        (0x90 ≤ c1 && c1 ≤ 0xBF) && utf8Cont c2 && utf8Cont c3 && utf8Valid rest2
      | _ => false
    else if 0xF1 ≤ b && b ≤ 0xF3 then
      match rest with
      | c1 :: c2 :: c3 :: rest2 =>
        utf8Cont c1 && utf8Cont c2 && utf8Cont c3 && utf8Valid rest2
      | _ => false
    else if b == 0xF4 then
      match rest with
      | c1 :: c2 :: c3 :: rest2 =>
        (0x80 ≤ c1 && c1 ≤ 0x8F) && utf8Cont c2 && utf8Cont c3 && utf8Valid rest2
      | _ => false
    else false

/-- Configuration of the ingestor loop that the modelled claims depend on:
the maximum batch size (`BATCH_SIZE`, default 200 in `main.rs` line 18). -/
structure Config where
  batchSize : Nat
  deriving DecidableEq

/-- Outcome of the HTTP POST issued by `flush` (`main.rs` lines 91-97):
either `client.send()` returned an error (connection failure or the
10-second request timeout), or a response arrived carrying a status whose
`is_success()` value is recorded. -/
inductive SendResult
  | err
  | resp (isSuccess : Bool)
  deriving DecidableEq

/-- Result of one call to `flush` (`main.rs` lines 81-108): the request body
that was built, the buffer as it stands when `flush` returns, and whether
`flush` returned `Ok`. On a transport error the `?` at line 97 returns
early, so `buf.clear()` at line 106 never runs and `Err` propagates; on any
received response (success status or not) the buffer is cleared and `Ok`
is returned. -/
structure FlushOut where
  body : List Nat
  buf : List (List Nat)
  ok : Bool
  deriving DecidableEq

/-- The `flush` function of `main.rs` lines 81-108 over byte-sequence
records. The body is `buf.join("\n") + "\n"` with newline byte 10. -/
def flush (buf : List (List Nat)) (net : SendResult) : FlushOut :=
  let body := List.intercalate [10] buf ++ [10]
  match net with
  | .err => ⟨body, buf, false⟩
  | .resp _ => ⟨body, [], true⟩

/-- One event observed by the `tokio::select!` loop of `main.rs` lines
48-76: a NATS message with its raw payload bytes, closure of the
subscription stream (`sub.next()` returned `None`), or a timer tick.
Message and tick events carry the network oracle consulted only if the
event leads to a flush attempt. -/
inductive Event
  | msg (payload : List Nat) (net : SendResult)
  | closed
  | tick (net : SendResult)
  deriving DecidableEq

/-- State of the ingestor loop: `running buf` inside the loop with buffer
`buf`; `done buf` after `break` at line 67 (stream closed, `main` returns
`Ok`); `failed buf` after a flush transport error propagated through the
`?` at line 59 or 72, making `main` return `Err`. Terminal states keep the
buffer contents to express what was left unflushed. -/
inductive LoopState
  | running (buf : List (List Nat))
  | done (buf : List (List Nat))
  | failed (buf : List (List Nat))
  deriving DecidableEq

/-- Buffer contents held by a loop state. -/
def LoopState.bufOf : LoopState → List (List Nat)
  | .running buf => buf
  | .done buf => buf
  | .failed buf => buf

/-- Result of one loop iteration: the successor state and, when a flush
attempt occurred during the iteration, the batch that was sent. -/
structure StepOut where
  state : LoopState
  flushed : Option (List (List Nat))
  deriving DecidableEq

/-- One iteration of the event loop of `main.rs` lines 48-76. On a message:
decode as UTF-8; on failure only log (line 62); on success push and flush
if `buf.len() >= batch_size` (line 58), where a flush transport error
propagates out of `main` (the `?` at line 59). On stream closure: `break`.
On a tick: flush only if the buffer is non-empty (line 71), with the same
error propagation (line 72). Terminal states absorb all events. -/
def step (cfg : Config) (s : LoopState) (e : Event) : StepOut :=
  match s with
  | .running buf =>
    match e with
    | .msg payload net =>
      if utf8Valid payload then
        let buf2 := buf ++ [payload]
        if cfg.batchSize ≤ buf2.length then
          match net with
          | .err => ⟨.failed buf2, some buf2⟩
          | .resp _ => ⟨.running [], some buf2⟩
        else ⟨.running buf2, none⟩
      else ⟨.running buf, none⟩
    | .closed => ⟨.done buf, none⟩
    | .tick net =>
      if buf.isEmpty then ⟨.running buf, none⟩
      else
        match net with
        | .err => ⟨.failed buf, some buf⟩
        | .resp _ => ⟨.running [], some buf⟩
  | .done buf => ⟨.done buf, none⟩
  | .failed buf => ⟨.failed buf, none⟩

/-- Run the loop over a sequence of events, collecting the final state and
the list of flushed batches in the order their flush attempts occurred. -/
def run (cfg : Config) (s : LoopState) : List Event → LoopState × List (List (List Nat))
  | [] => (s, [])
  | e :: es =>
    let o := step cfg s e
    let r := run cfg o.state es
    (r.1, o.flushed.toList ++ r.2)

/-- Reference form of the flush body, written directly from the spec's
sentence: the records in arrival order, a single newline between
consecutive records, and exactly one trailing newline. Compared against
the body built by `flush` (which models `buf.join("\n") + "\n"`). -/
def specBody : List (List Nat) → List Nat
  | [] => [10]
  | [r] => r ++ [10]
  | r :: rs => r ++ 10 :: specBody rs

/-- State of the tokio interval timer of `main.rs` lines 44-46: the fixed
period and the deadline of the next tick. -/
structure Ticker where
  period : Nat
  deadline : Nat
  deriving DecidableEq

/-- One `tick()` await under `MissedTickBehavior::Skip` (`main.rs` line 46),
polled at time `now`: if the deadline is still ahead, the tick fires at
the deadline and the next deadline is one period later; if the deadline
was missed, the tick fires immediately and the next deadline jumps to
`now + period - ((now - deadline) % period)`, the next period-aligned
instant after `now` — missed ticks are skipped, never queued. Returns
the fire time and the updated ticker. -/
def tickSkip (tk : Ticker) (now : Nat) : Nat × Ticker :=
  if now < tk.deadline then
    (tk.deadline, ⟨tk.period, tk.deadline + tk.period⟩)
  else
    (now, ⟨tk.period, now + tk.period - (now - tk.deadline) % tk.period⟩)

/-- Fire times of a sequence of `tick()` awaits, where `nows` lists the
instants at which the loop comes back to await the ticker (arbitrary,
since a flush or message handling may have taken any amount of time). -/
def tickerRun (tk : Ticker) : List Nat → List Nat
  | [] => []
  | now :: rest =>
    let o := tickSkip tk now
    o.1 :: tickerRun o.2 rest

/-- The `LoggerPlugin` of `lib.rs` lines 43-46: the optional configured
target wallet, a 32-byte public key decoded from base58 at load time. -/
structure LoggerPlugin where
  target_wallet : Option (List Nat)
  deriving DecidableEq

/-- The `matches_target` method of `lib.rs` lines 126-132: with a target
configured the key must equal it byte for byte; with no target every key
passes. -/
def matches_target (p : LoggerPlugin) (key : List Nat) : Bool :=
  match p.target_wallet with
  | some t => key == t
  | none => true

/-- Account info shared by the three `ReplicaAccountInfo` versions, with
the fields `update_account` reads: the public key bytes, the lamports
balance, and for v0.0.2/v0.0.3 the write version. -/
structure AccountInfoV1 where
  pubkey : List Nat
  lamports : Nat
  deriving DecidableEq

/-- Fields of `ReplicaAccountInfoV2` read by `update_account`. -/
structure AccountInfoV2 where
  pubkey : List Nat
  lamports : Nat
  write_version : Nat
  has_txn_signature : Bool
  deriving DecidableEq

/-- Fields of `ReplicaAccountInfoV3` read by `update_account`. -/
structure AccountInfoV3 where
  pubkey : List Nat
  lamports : Nat
  write_version : Nat
  deriving DecidableEq

/-- The `ReplicaAccountInfoVersions` sum type of the Geyser interface, as
matched in `lib.rs` lines 199-266. -/
inductive ReplicaAccountInfoVersions
  | V0_0_1 (info : AccountInfoV1)
  | V0_0_2 (info : AccountInfoV2)
  | V0_0_3 (info : AccountInfoV3)
  deriving DecidableEq

/-- Public key carried by an account update, whichever version it uses. -/
def ReplicaAccountInfoVersions.pubkeyOf : ReplicaAccountInfoVersions → List Nat
  | .V0_0_1 info => info.pubkey
  | .V0_0_2 info => info.pubkey
  | .V0_0_3 info => info.pubkey

/-- The bitcoin base58 alphabet used by the `bs58` crate, as byte values of
the characters of "123456789ABCDEFGHJKLMNPQRSTUVWXYZabcdefghijkmnopqrstuvwxyz". -/
def base58Alphabet : List Nat :=
  [49, 50, 51, 52, 53, 54, 55, 56, 57,
   65, 66, 67, 68, 69, 70, 71, 72,
   74, 75, 76, 77, 78,
   80, 81, 82, 83, 84, 85, 86, 87, 88, 89, 90,
   97, 98, 99, 100, 101, 102, 103, 104, 105, 106, 107,
   109, 110, 111, 112, 113, 114, 115, 116, 117, 118, 119, 120, 121, 122]

/-- Little-endian base-58 digits of `n`, with `fuel` bounding the recursion
so the definition is structural; `fuel = n` suffices since `n / 58 < n`. -/
def bs58DigitsAux : Nat → Nat → List Nat
  | 0, _ => []
  | fuel + 1, n => if n = 0 then [] else n % 58 :: bs58DigitsAux fuel (n / 58)

/-- The byte sequence as a big-endian natural number. -/
def bytesToNat (bytes : List Nat) : Nat :=
  bytes.foldl (fun acc b => acc * 256 + b) 0

/-- Base58 encoding as performed by `bs58::encode(key).into_string()` in
`lib.rs`: one alphabet-first character per leading zero byte, then the
base-58 digits of the remaining value, most significant first. -/
def bs58Encode (bytes : List Nat) : List Nat :=
  let zeros := bytes.takeWhile (· == 0)
  let n := bytesToNat bytes
  zeros.map (fun _ => 49) ++
    ((bs58DigitsAux n n).reverse.map (fun d => base58Alphabet.getD d 0))

/-- The `Row` serialized to JSON and published to NATS (`lib.rs` lines
48-56): timestamp string, slot, write version, base58 public key string,
lamports widened to u128. String fields are byte sequences. -/
structure Row where
  ts : List Nat
  slot : Nat
  write_ver : Nat
  pubkey : List Nat
  lamports : Nat
  deriving DecidableEq

/-- The `update_account` callback of `lib.rs` lines 189-269, returning the
row published to NATS, or `none` when the update is dropped. Startup
(snapshot) updates return immediately (lines 195-197); a non-matching key
returns before any encoding (lines 202, 223, 246); otherwise a row is
built with the current wall-clock string `now` and published, with
`write_ver` 0 for v0.0.1 since that version carries no write version. -/
def update_account (p : LoggerPlugin) (account : ReplicaAccountInfoVersions)
    (slot : Nat) (isStartup : Bool) (now : List Nat) : Option Row :=
  if isStartup then none
  else
    match account with
    | .V0_0_1 info =>
      if matches_target p info.pubkey then
        some ⟨now, slot, 0, bs58Encode info.pubkey, info.lamports⟩
      else none
    | .V0_0_2 info =>
      if matches_target p info.pubkey then
        some ⟨now, slot, info.write_version, bs58Encode info.pubkey, info.lamports⟩
      else none
    | .V0_0_3 info =>
      if matches_target p info.pubkey then
        some ⟨now, slot, info.write_version, bs58Encode info.pubkey, info.lamports⟩
      else none

/-- The `account_data_snapshot_notifications_enabled` method of `lib.rs`
lines 177-179: the plugin asks the validator for snapshot account data. -/
def account_data_snapshot_notifications_enabled (_ : LoggerPlugin) : Bool :=
  true

/-- Joining with separator `[10]` and appending a trailing newline yields the
spec's record-by-record description of the body. -/
theorem intercalate_nl_eq_specBody : ∀ buf : List (List Nat),
    List.intercalate [10] buf ++ [10] = specBody buf
  | [] => by simp [List.intercalate, specBody]
  | [r] => by simp [List.intercalate, specBody]
  | r :: s :: t => by
    have ih := intercalate_nl_eq_specBody (s :: t)
    simp only [specBody]
    rw [show List.intercalate [10] (r :: s :: t)
          = r ++ [10] ++ List.intercalate [10] (s :: t) by
        simp [List.intercalate, List.intersperse]]
    simp only [List.append_assoc, List.cons_append, List.nil_append] at ih ⊢
    rw [ih]

example : utf8Valid [104, 105] = true := by decide
example : utf8Valid [0xFF] = false := by decide
example : utf8Valid [0xC3, 0xA9] = true := by decide
example : utf8Valid [0xC3] = false := by decide
example : utf8Valid [0xED, 0xA0, 0x80] = false := by decide
example : utf8Valid [0xF0, 0x9F, 0x98, 0x80] = true := by decide
example :
    step ⟨2⟩ (.running []) (.msg [104] (.resp true)) = ⟨.running [[104]], none⟩ := by decide
example :
    step ⟨2⟩ (.running [[104]]) (.msg [105] (.resp true)) =
      ⟨.running [], some [[104], [105]]⟩ := by decide
example :
    step ⟨2⟩ (.running [[104]]) (.tick .err) = ⟨.failed [[104]], some [[104]]⟩ := by decide

/-- C5: for every batch, the flushed request body equals the records joined
with a single newline between consecutive records plus exactly one trailing
newline, in their original arrival order. -/
theorem C5_flush_body (buf : List (List Nat)) (net : SendResult) :
    (flush buf net).body = specBody buf := by
  cases net <;> simp [flush, intercalate_nl_eq_specBody]

/-- C1 counterexample: the claim says the flush operation clears the batch
unconditionally, even when the call failed at the transport level; but on a
transport error `flush` returns through the `?` before `buf.clear()`, so at
the concrete batch `[[97]]` the buffer after the attempt is not empty. -/
theorem C1_flush_err_leaves_batch :
    (flush [[97]] .err).buf = [[97]] ∧ [[97]] ≠ ([] : List (List Nat)) := by
  exact ⟨rfl, by decide⟩

/-- C1 amended: the flush operation clears the batch after the attempt
whenever the HTTP send obtained a response, whether or not its status was
a success; when the send fails at the transport level, `flush` returns an
error without clearing and the batch is left intact. -/
theorem C1_amended_clear_on_response (buf : List (List Nat)) (b : Bool) :
    (flush buf (.resp b)).buf = [] ∧
    (flush buf (.resp b)).ok = true ∧
    (flush buf .err).buf = buf ∧
    (flush buf .err).ok = false :=
  ⟨rfl, rfl, rfl, rfl⟩

/-- C2 counterexample: the claim says a sink-unavailable or timeout failure
never terminates the loop; but a transport error on a timer-triggered flush
of the concrete batch `[[97]]` propagates through the `?` in `main` and puts
the loop in the terminal failed state. -/
theorem C2_transport_error_terminates_loop :
    (step ⟨200⟩ (.running [[97]]) (.tick .err)).state = .failed [[97]] := by
  decide

/-- C2 amended: a non-success HTTP response is recovered locally (logged,
batch discarded, loop continues with an empty buffer), while a
transport-level failure — sink unreachable or per-request timeout —
propagates out of the loop and terminates it with the batch unflushed. -/
theorem C2_amended_response_recovered (cfg : Config) (buf : List (List Nat))
    (h : buf ≠ []) :
    step cfg (.running buf) (.tick (.resp false)) = ⟨.running [], some buf⟩ ∧
    step cfg (.running buf) (.tick .err) = ⟨.failed buf, some buf⟩ := by
  have hne : buf.isEmpty = false := by
    cases buf with
    | nil => exact absurd rfl h
    | cons x xs => rfl
  exact ⟨by simp [step, hne], by simp [step, hne]⟩

/-- Witness for the amended C2 at the concrete batch `[[97]]`. -/
theorem C2_amended_response_recovered_witness :
    step ⟨200⟩ (.running [[97]]) (.tick (.resp false)) = ⟨.running [], some [[97]]⟩ ∧
    step ⟨200⟩ (.running [[97]]) (.tick .err) = ⟨.failed [[97]], some [[97]]⟩ :=
  C2_amended_response_recovered ⟨200⟩ [[97]] (by decide)

/-- C6: in every reachable situation, a flush attempt carries a non-empty
batch: the size trigger fires only after a push, and the timer trigger is
guarded by the non-emptiness check of the buffer. -/
theorem C6_flush_nonempty (cfg : Config) (s : LoopState) (e : Event)
    (b : List (List Nat)) (h : (step cfg s e).flushed = some b) : b ≠ [] := by
  cases s with
  | running buf =>
    cases e with
    | msg payload net =>
      by_cases hv : utf8Valid payload
      · by_cases hlen : cfg.batchSize ≤ buf.length + 1
        · cases net <;>
            · simp [step, hv, hlen] at h
              simp [← h]
        · simp [step, hv, hlen] at h
      · simp [step, hv] at h
    | closed => simp [step] at h
    | tick net =>
      by_cases he : buf.isEmpty
      · simp [step, he] at h
      · cases net <;> simp [step, he] at h <;>
          · rw [← h]
            simpa [List.isEmpty_iff] using he
  | done buf => simp [step] at h
  | failed buf => simp [step] at h

/-- Witness for C6: a timer flush of the one-record batch is non-empty. -/
theorem C6_flush_nonempty_witness : [[97]] ≠ ([] : List (List Nat)) :=
  C6_flush_nonempty ⟨200⟩ (.running [[97]]) (.tick (.resp true)) [[97]] (by decide)

/-- C8: when the subscription stream reports closure, the loop moves to the
terminal done state without a flush attempt; from that state no event ever
causes another flush attempt, and the buffered records stay unflushed. -/
theorem C8_stream_closed_fatal (cfg : Config) (buf : List (List Nat))
    (events : List Event) :
    step cfg (.running buf) .closed = ⟨.done buf, none⟩ ∧
    run cfg (.done buf) events = (.done buf, []) := by
  refine ⟨rfl, ?_⟩
  induction events with
  | nil => rfl
  | cons e es ih => simp [run, step, ih]

/-- A guarded `some`/`none` is defined exactly when the guard holds. -/
theorem isSome_if_bool {α : Type} (c : Bool) (x : α) :
    (if c = true then some x else none).isSome = c := by
  cases c <;> simp

/-- Unfolding of the `matches_target` guard into the two spec cases. -/
theorem matches_target_iff (p : LoggerPlugin) (key : List Nat) :
    matches_target p key = true ↔
      (p.target_wallet = none ∨ p.target_wallet = some key) := by
  obtain ⟨tw⟩ := p
  cases tw with
  | none => simp only [matches_target]; simp
  | some t =>
    simp only [matches_target]
    simp
    exact eq_comm

/-- C9: a non-startup account update is published exactly when no target
wallet is configured or the update's public key equals the configured
target byte for byte; the publish decision coincides with `matches_target`. -/
theorem C9_target_filter (p : LoggerPlugin) (account : ReplicaAccountInfoVersions)
    (slot : Nat) (now : List Nat) :
    (update_account p account slot false now).isSome = matches_target p account.pubkeyOf ∧
    ((update_account p account slot false now).isSome = true ↔
      (p.target_wallet = none ∨ p.target_wallet = some account.pubkeyOf)) := by
  have h1 : (update_account p account slot false now).isSome
      = matches_target p account.pubkeyOf := by
    cases account with
    | V0_0_1 info => exact isSome_if_bool _ _
    | V0_0_2 info => exact isSome_if_bool _ _
    | V0_0_3 info => exact isSome_if_bool _ _
  exact ⟨h1, by rw [h1]; exact matches_target_iff p _⟩

/-- C10: every startup (snapshot) account update returns immediately and
publishes nothing, even though snapshot account-data notifications are
enabled by the plugin. -/
theorem C10_startup_skipped (p : LoggerPlugin) (account : ReplicaAccountInfoVersions)
    (slot : Nat) (now : List Nat) :
    update_account p account slot true now = none ∧
    account_data_snapshot_notifications_enabled p = true :=
  ⟨rfl, rfl⟩

/-- Every record stored by the loop state decoded as valid UTF-8. -/
def BufValid (s : LoopState) : Prop := ∀ r ∈ s.bufOf, utf8Valid r = true

/-- One loop iteration preserves buffer validity, and any batch it flushes
consists only of valid records. -/
theorem step_bufValid (cfg : Config) (s : LoopState) (e : Event) (h : BufValid s) :
    BufValid (step cfg s e).state ∧
      ∀ b, (step cfg s e).flushed = some b → ∀ r ∈ b, utf8Valid r = true := by
  cases s with
  | running buf =>
    have hbuf : ∀ r ∈ buf, utf8Valid r = true := h
    have hnil : BufValid (.running []) := by
      intro r hr
      exact absurd hr (List.not_mem_nil r)
    cases e with
    | msg payload net =>
      by_cases hv : utf8Valid payload
      · have hb : ∀ r ∈ buf ++ [payload], utf8Valid r = true := by
          intro r hr
          rcases List.mem_append.1 hr with h1 | h1
          · exact hbuf r h1
          · rw [List.mem_singleton.1 h1]; exact hv
        by_cases hlen : cfg.batchSize ≤ buf.length + 1
        · cases net with
          | err =>
            have hs : step cfg (.running buf) (.msg payload .err)
                = ⟨.failed (buf ++ [payload]), some (buf ++ [payload])⟩ := by
              simp [step, hv, hlen]
            rw [hs]
            refine ⟨hb, fun b hb2 => ?_⟩
            injection hb2 with hb3
            rw [← hb3]; exact hb
          | resp ok =>
            have hs : step cfg (.running buf) (.msg payload (.resp ok))
                = ⟨.running [], some (buf ++ [payload])⟩ := by
              simp [step, hv, hlen]
            rw [hs]
            refine ⟨hnil, fun b hb2 => ?_⟩
            injection hb2 with hb3
            rw [← hb3]; exact hb
        · have hs : step cfg (.running buf) (.msg payload net)
              = ⟨.running (buf ++ [payload]), none⟩ := by
            cases net <;> simp [step, hv, hlen]
          rw [hs]
          exact ⟨hb, fun b hb2 => Option.noConfusion hb2⟩
      · have hs : step cfg (.running buf) (.msg payload net)
            = ⟨.running buf, none⟩ := by
          simp [step, hv]
        rw [hs]
        exact ⟨hbuf, fun b hb2 => Option.noConfusion hb2⟩
    | closed =>
      exact ⟨hbuf, fun b hb2 => Option.noConfusion hb2⟩
    | tick net =>
      by_cases he : buf.isEmpty
      · have hs : step cfg (.running buf) (.tick net) = ⟨.running buf, none⟩ := by
          simp [step, he]
        rw [hs]
        exact ⟨hbuf, fun b hb2 => Option.noConfusion hb2⟩
      · cases net with
        | err =>
          have hs : step cfg (.running buf) (.tick .err)
              = ⟨.failed buf, some buf⟩ := by
            simp [step, he]
          rw [hs]
          refine ⟨hbuf, fun b hb2 => ?_⟩
          injection hb2 with hb3
          rw [← hb3]; exact hbuf
        | resp ok =>
          have hs : step cfg (.running buf) (.tick (.resp ok))
              = ⟨.running [], some buf⟩ := by
            simp [step, he]
          rw [hs]
          refine ⟨hnil, fun b hb2 => ?_⟩
          injection hb2 with hb3
          rw [← hb3]; exact hbuf
  | done buf => exact ⟨h, fun b hb2 => Option.noConfusion hb2⟩
  | failed buf => exact ⟨h, fun b hb2 => Option.noConfusion hb2⟩

/-- Every record of every batch flushed along a run from a valid state is
valid UTF-8. -/
theorem run_flushes_valid (cfg : Config) (events : List Event) :
    ∀ s, BufValid s → ∀ b ∈ (run cfg s events).2, ∀ r ∈ b, utf8Valid r = true := by
  induction events with
  | nil =>
    intro s hs b hb
    exact absurd hb (List.not_mem_nil b)
  | cons e es ih =>
    intro s hs b hb
    obtain ⟨h1, h2⟩ := step_bufValid cfg s e hs
    simp only [run] at hb
    rcases List.mem_append.1 hb with hb1 | hb1
    · cases hf : (step cfg s e).flushed with
      | none => rw [hf] at hb1; exact absurd hb1 (List.not_mem_nil b)
      | some b0 =>
        rw [hf] at hb1
        rcases List.mem_singleton.1 hb1 with rfl
        exact h2 b hf
    · exact ih (step cfg s e).state h1 b hb1

/-- C3: an incoming payload that is not valid UTF-8 leaves the loop state
and the buffer exactly unchanged and causes no flush attempt, and every
record of every batch flushed along any run that starts from the empty
buffer is valid UTF-8 — so a non-UTF-8 payload never appears in a flushed
batch. -/
theorem C3_non_utf8_dropped (cfg : Config) (buf : List (List Nat))
    (payload : List Nat) (net : SendResult) (events : List Event)
    (h : utf8Valid payload = false) :
    step cfg (.running buf) (.msg payload net) = ⟨.running buf, none⟩ ∧
    ∀ b ∈ (run cfg (.running []) events).2, ∀ r ∈ b, utf8Valid r = true := by
  constructor
  · simp [step, h]
  · refine run_flushes_valid cfg events (.running []) ?_
    intro r hr
    exact absurd hr (List.not_mem_nil r)

/-- Witness for C3 at the payload `[255]` (invalid UTF-8) against the
buffer `[[104]]` and a run that flushes once. -/
theorem C3_non_utf8_dropped_witness :
    step ⟨2⟩ (.running [[104]]) (.msg [255] .err) = ⟨.running [[104]], none⟩ ∧
    utf8Valid [104] = true := by
  have h := C3_non_utf8_dropped ⟨2⟩ [[104]] [255] .err
    [.msg [104] (.resp true), .tick (.resp true)] (by decide)
  exact ⟨h.1, h.2 [[104]] (by decide) [104] (by decide)⟩

/-- The buffer of a live (running) loop state stays strictly below the
configured batch size: reaching the size triggers an immediate flush. -/
def BufBelow (cfg : Config) (s : LoopState) : Prop :=
  ∀ buf, s = .running buf → buf.length < cfg.batchSize

/-- One loop iteration preserves the strict length bound on live states. -/
theorem step_bufBelow (cfg : Config) (hcfg : 0 < cfg.batchSize) (s : LoopState)
    (e : Event) (hs : BufBelow cfg s) : BufBelow cfg (step cfg s e).state := by
  have hnil : BufBelow cfg (.running []) := by
    intro b hb
    injection hb with hb1
    rw [← hb1]
    exact hcfg
  cases s with
  | running buf =>
    have hb : buf.length < cfg.batchSize := hs buf rfl
    cases e with
    | msg payload net =>
      by_cases hv : utf8Valid payload
      · by_cases hlen : cfg.batchSize ≤ buf.length + 1
        · cases net with
          | err =>
            have heq : step cfg (.running buf) (.msg payload .err)
                = ⟨.failed (buf ++ [payload]), some (buf ++ [payload])⟩ := by
              simp [step, hv, hlen]
            rw [heq]
            intro b hb2
            exact absurd hb2 (by simp)
          | resp ok =>
            have heq : step cfg (.running buf) (.msg payload (.resp ok))
                = ⟨.running [], some (buf ++ [payload])⟩ := by
              simp [step, hv, hlen]
            rw [heq]
            exact hnil
        · have heq : step cfg (.running buf) (.msg payload net)
              = ⟨.running (buf ++ [payload]), none⟩ := by
            cases net <;> simp [step, hv, hlen]
          rw [heq]
          intro b hb2
          injection hb2 with hb3
          rw [← hb3]
          simp only [List.length_append, List.length_cons, List.length_nil]
          omega
      · have heq : step cfg (.running buf) (.msg payload net)
            = ⟨.running buf, none⟩ := by
          simp [step, hv]
        rw [heq]
        exact hs
    | closed =>
      intro b hb2
      exact absurd hb2 (by simp [step])
    | tick net =>
      by_cases he : buf.isEmpty
      · have heq : step cfg (.running buf) (.tick net) = ⟨.running buf, none⟩ := by
          simp [step, he]
        rw [heq]
        exact hs
      · cases net with
        | err =>
          have heq : step cfg (.running buf) (.tick .err)
              = ⟨.failed buf, some buf⟩ := by
            simp [step, he]
          rw [heq]
          intro b hb2
          exact absurd hb2 (by simp)
        | resp ok =>
          have heq : step cfg (.running buf) (.tick (.resp ok))
              = ⟨.running [], some buf⟩ := by
            simp [step, he]
          rw [heq]
          exact hnil
  | done buf =>
    intro b hb2
    exact absurd hb2 (by simp [step])
  | failed buf =>
    intro b hb2
    exact absurd hb2 (by simp [step])

/-- A whole run preserves the strict length bound on live states. -/
theorem run_bufBelow (cfg : Config) (hcfg : 0 < cfg.batchSize) (events : List Event) :
    ∀ s, BufBelow cfg s → BufBelow cfg (run cfg s events).1 := by
  induction events with
  | nil => intro s hs; exact hs
  | cons e es ih =>
    intro s hs
    exact ih (step cfg s e).state (step_bufBelow cfg hcfg s e hs)

/-- C4: while the buffer is below the maximum, an accepted message causes
no flush; a message that brings the buffer length to at least the maximum
triggers a flush synchronously, carrying the whole buffer; and in every
loop state reachable from the empty buffer the buffer length never exceeds
the configured maximum. -/
theorem C4_batch_bound (cfg : Config) (buf buf2 : List (List Nat))
    (payload : List Nat) (net : SendResult) (events : List Event)
    (hcfg : 0 < cfg.batchSize) :
    ((buf ++ [payload]).length < cfg.batchSize → utf8Valid payload = true →
      step cfg (.running buf) (.msg payload net) = ⟨.running (buf ++ [payload]), none⟩) ∧
    (cfg.batchSize ≤ (buf ++ [payload]).length → utf8Valid payload = true →
      (step cfg (.running buf) (.msg payload net)).flushed = some (buf ++ [payload])) ∧
    ((run cfg (.running []) events).1 = .running buf2 → buf2.length ≤ cfg.batchSize) := by
  refine ⟨?_, ?_, ?_⟩
  · intro hlen hv
    have hlen2 : ¬ cfg.batchSize ≤ buf.length + 1 := by
      simp only [List.length_append, List.length_cons, List.length_nil] at hlen
      omega
    cases net <;> simp [step, hv, hlen2]
  · intro hlen hv
    have hlen2 : cfg.batchSize ≤ buf.length + 1 := by
      simp only [List.length_append, List.length_cons, List.length_nil] at hlen
      omega
    cases net <;> simp [step, hv, hlen2]
  · intro hrun
    have h0 : BufBelow cfg (.running []) := by
      intro b hb
      injection hb with hb1
      rw [← hb1]
      exact hcfg
    have := run_bufBelow cfg hcfg events (.running []) h0 buf2 hrun
    omega

/-- Witness for C4: with maximum 3, a second message does not flush; with
maximum 2 it flushes the two records; and the state reached after one
message holds one record, within the maximum 2. -/
theorem C4_batch_bound_witness :
    step ⟨3⟩ (.running [[104]]) (.msg [105] .err) = ⟨.running [[104], [105]], none⟩ ∧
    (step ⟨2⟩ (.running [[104]]) (.msg [105] .err)).flushed = some [[104], [105]] ∧
    [[104]].length ≤ 2 := by
  refine ⟨?_, ?_, ?_⟩
  · exact (C4_batch_bound ⟨3⟩ [[104]] [] [105] .err [] (by decide)).1
      (by decide) (by decide)
  · exact (C4_batch_bound ⟨2⟩ [[104]] [] [105] .err [] (by decide)).2.1
      (by decide) (by decide)
  · exact (C4_batch_bound ⟨2⟩ [] [[104]] [0] .err [.msg [104] .err] (by decide)).2.2
      (by decide)

/-- Awaiting a tick never changes the period. -/
theorem tickSkip_period (tk : Ticker) (now : Nat) :
    (tickSkip tk now).2.period = tk.period := by
  unfold tickSkip
  split <;> rfl

/-- A tick never fires before the current deadline. -/
theorem tickSkip_fire_ge (tk : Ticker) (now : Nat) :
    tk.deadline ≤ (tickSkip tk now).1 := by
  unfold tickSkip
  split
  · exact Nat.le_refl _
  · exact Nat.le_of_not_lt (by assumption)

/-- After a tick the deadline advances by at least one full period: a
missed deadline is skipped forward to the next period-aligned instant,
never replayed. -/
theorem tickSkip_next_deadline (tk : Ticker) (now : Nat) (hp : 0 < tk.period) :
    tk.deadline + tk.period ≤ (tickSkip tk now).2.deadline := by
  unfold tickSkip
  split
  · exact Nat.le_refl _
  case isFalse hlt =>
    have hd : tk.deadline ≤ now := Nat.le_of_not_lt hlt
    have hm : (now - tk.deadline) % tk.period ≤ now - tk.deadline :=
      Nat.mod_le _ _
    simp only
    omega

/-- The i-th tick of a run fires no earlier than i full periods after the
initial deadline, whatever the await instants were. -/
theorem tickerRun_get_ge (nows : List Nat) : ∀ tk : Ticker, 0 < tk.period →
    ∀ i (hi : i < (tickerRun tk nows).length),
      tk.deadline + i * tk.period ≤ (tickerRun tk nows).get ⟨i, hi⟩ := by
  induction nows with
  | nil =>
    intro tk hp i hi
    exact absurd hi (by simp [tickerRun])
  | cons now rest ih =>
    intro tk hp i hi
    cases i with
    | zero =>
      simpa [tickerRun] using tickSkip_fire_ge tk now
    | succ n =>
      have hp2 : 0 < (tickSkip tk now).2.period := by
        rw [tickSkip_period]; exact hp
      have hi2 : n < (tickerRun (tickSkip tk now).2 rest).length := by
        have : (tickerRun tk (now :: rest)).length
            = (tickerRun (tickSkip tk now).2 rest).length + 1 := by
          simp [tickerRun]
        omega
      have hrec := ih (tickSkip tk now).2 hp2 n hi2
      rw [tickSkip_period] at hrec
      have hd := tickSkip_next_deadline tk now hp
      have hget : (tickerRun tk (now :: rest)).get ⟨n + 1, hi⟩
          = (tickerRun (tickSkip tk now).2 rest).get ⟨n, hi2⟩ := rfl
      rw [hget]
      have : tk.deadline + (n + 1) * tk.period
          = tk.deadline + tk.period + n * tk.period := by ring
      omega

/-- Arithmetic core of the no-burst bound: an instant at least
`(q + 1 + j)` periods past the initial deadline lies strictly beyond any
time `T` whose elapsed interval count is `q`. -/
theorem interval_count_arith (T d0 period j q r : Nat)
    (hqr : period * q + r = T - d0) (hr : r < period) :
    T < d0 + (q + 1 + j) * period := by
  have h3 : (q + 1 + j) * period = period * q + period + period * j := by ring
  omega

/-- C7: under the Skip missed-tick behaviour, timer fires are never queued:
the i-th fire happens no earlier than i full flush intervals after the
initial deadline, and the number of fires occurring up to any time `T` is
at most one per interval elapsed by `T` — no burst of catch-up ticks. -/
theorem C7_skip_no_burst (period d0 : Nat) (nows : List Nat) (hp : 0 < period) :
    (∀ i (hi : i < (tickerRun ⟨period, d0⟩ nows).length),
      d0 + i * period ≤ (tickerRun ⟨period, d0⟩ nows).get ⟨i, hi⟩) ∧
    (∀ T, ((tickerRun ⟨period, d0⟩ nows).filter (fun t => t ≤ T)).length
        ≤ (T - d0) / period + 1) := by
  have hidx := tickerRun_get_ge nows ⟨period, d0⟩ hp
  refine ⟨hidx, ?_⟩
  intro T
  set l := tickerRun ⟨period, d0⟩ nows with hl
  set K := (T - d0) / period + 1 with hK
  have hdrop : ∀ x ∈ l.drop K, (fun t => decide (t ≤ T)) x = false := by
    intro x hx
    obtain ⟨⟨j, hj⟩, hget⟩ := List.mem_iff_get.1 hx
    have hj2 : K + j < l.length := by
      have := List.length_drop K l
      omega
    have hgd : (l.drop K).get ⟨j, hj⟩ = l.get ⟨K + j, hj2⟩ := by
      rw [List.get_drop]
    have hge : d0 + (K + j) * period ≤ l.get ⟨K + j, hj2⟩ := hidx (K + j) hj2
    have hTlt : T < l.get ⟨K + j, hj2⟩ := by
      have harith : T < d0 + (K + j) * period := by
        have := interval_count_arith T d0 period j ((T - d0) / period)
          ((T - d0) % period) (Nat.div_add_mod _ _) (Nat.mod_lt _ hp)
        have hKe : K + j = (T - d0) / period + 1 + j := by omega
        rw [hKe]
        exact this
      omega
    have hxval : x = l.get ⟨K + j, hj2⟩ := by rw [← hget, hgd]
    show decide (x ≤ T) = false
    rw [hxval]
    simp only [decide_eq_false_iff_not]
    omega
  calc (l.filter (fun t => t ≤ T)).length
      = ((l.take K ++ l.drop K).filter (fun t => t ≤ T)).length := by
        rw [List.take_append_drop]
    _ = ((l.take K).filter (fun t => t ≤ T)).length
        + ((l.drop K).filter (fun t => t ≤ T)).length := by
        rw [List.filter_append, List.length_append]
    _ ≤ K + 0 := by
        apply Nat.add_le_add
        · calc ((l.take K).filter (fun t => t ≤ T)).length
              ≤ (l.take K).length := List.length_filter_le _ _
            _ ≤ K := List.length_take_le _ _
        · have : (l.drop K).filter (fun t => t ≤ T) = [] := by
            apply List.filter_eq_nil.2
            intro x hx
            have := hdrop x hx
            simp at this
            simp
            omega
          rw [this]
          simp
    _ = K := Nat.add_zero K

/-- Witness for C7 at period 10 and initial deadline 7, with the loop
twice coming back to the timer well after a missed deadline. -/
theorem C7_skip_no_burst_witness :
    7 + 1 * 10 ≤ (tickerRun ⟨10, 7⟩ [0, 25, 40]).get ⟨1, by decide⟩ ∧
    ((tickerRun ⟨10, 7⟩ [0, 25, 40]).filter (fun t => t ≤ 40)).length
      ≤ (40 - 7) / 10 + 1 :=
  ⟨(C7_skip_no_burst 10 7 [0, 25, 40] (by decide)).1 1 (by decide),
   (C7_skip_no_burst 10 7 [0, 25, 40] (by decide)).2 40⟩
